import Mathlib

/-!
Shallow embedding of `testalchemy.py` (riffm/testalchemy): the change
history tracker `DBHistory`, the transactional sandbox `Restorable`, and
the lazy fixture helper `sample_property` / `Sample`.

Modelling conventions:
* A model class is a `Nat`; an identity key (primary-key tuple) is a
  `List Nat`.  A live ORM entity is an `Obj`, carrying the class and the
  identity key that `sqlalchemy.orm.util.identity_key` resolves it to.
* Python `set`s are modelled as duplicate-free lists maintained by
  insert-if-absent (`insertElem`) and union (`setUnion`); Python `dict`s
  keyed by model class are association lists (`IdentsDict`), whose
  truthiness test (`not d`) is emptiness of the key list, exactly as in
  CPython.
* Session-level side effects that do not touch the tracked state
  (event (de)registration, SQL emission, autoflush toggling) are outside
  the model; the event callbacks become state-transition functions and
  the database visible to `Restorable` is the list of committed rows.
* `assert` statements raising `AssertionError` become `Except AssertError`
  results; each distinct message template of the source is one
  constructor of `AssertError`, carrying the values interpolated into
  the message.
-/

set_option autoImplicit false

/-- A model class (opaque in the source; entities are grouped by it). -/
abbrev ModelCls := Nat

/-- An identity key: the tuple of primary-key values of a row. -/
abbrev Ident := List Nat

/-- A live ORM entity, abstracted to what `util.identity_key` can see:
its model class and its identity key. -/
structure Obj where
  cls : ModelCls
  ident : Ident
deriving DecidableEq, Repr

/-- `util.identity_key(instance=obj)`: resolve an entity to
`(model class, primary-key tuple)`. -/
def identity_key (o : Obj) : ModelCls × Ident := (o.cls, o.ident)

/-- Python `set.add` on a set-as-list: insert if absent. -/
def insertElem {α : Type} [DecidableEq α] (s : List α) (x : α) : List α :=
  if x ∈ s then s else s ++ [x]

/-- Python `set.union` on sets-as-lists: keep the left operand, append the
members of the right operand not already present. -/
def setUnion {α : Type} [DecidableEq α] (a b : List α) : List α :=
  a ++ b.filter (fun x => decide (x ∉ a))

/-- A Python set of identity keys. -/
abbrev IdentSet := List Ident

/-- A Python dict mapping model class to a set of identity keys
(`created_idents` / `updated_idents` / `deleted_idents`, and
`Restorable.history`), as an association list with unique keys. -/
abbrev IdentsDict := List (ModelCls × IdentSet)

/-- Python `d.get(k, set())`. -/
def dictGetD (d : IdentsDict) (k : ModelCls) : IdentSet :=
  match d with
  | [] => []
  | (k', v) :: rest => if k' = k then v else dictGetD rest k

/-- Whether `k` is a key of the dict (`k in d`). -/
def dictHasKey (d : IdentsDict) (k : ModelCls) : Bool :=
  match d with
  | [] => false
  | (k', _) :: rest => k' = k || dictHasKey rest k

/-- Python `d.setdefault(k, set()).add(i)`: extend the set stored under
`k` with `i`, materialising the entry if the key is new. -/
def dictAdd (d : IdentsDict) (k : ModelCls) (i : Ident) : IdentsDict :=
  match d with
  | [] => [(k, insertElem [] i)]
  | (k', v) :: rest =>
      if k' = k then (k', insertElem v i) :: rest else (k', v) :: dictAdd rest k i

/-- The three tracking modes of `DBHistory` (the `mode` strings
`'created' / 'updated' / 'deleted'`; `last` asserts that the string is
one of the three, which the inductive type makes structural). -/
inductive Mode where
  | created
  | updated
  | deleted
deriving DecidableEq, Repr

/-- The state of a `DBHistory` tracker: the three transient per-flush
caches of live entities (`_created`, `_updated`, `_deleted`) and the
three durable ledgers mapping model class to identity-key sets. -/
structure DBHistory where
  _created : List Obj
  _updated : List Obj
  _deleted : List Obj
  created_idents : IdentsDict
  updated_idents : IdentsDict
  deleted_idents : IdentsDict
deriving DecidableEq, Repr

/-- `DBHistory.__init__`: all caches and ledgers start empty. -/
def DBHistory.init : DBHistory :=
  { _created := [], _updated := [], _deleted := []
    created_idents := [], updated_idents := [], deleted_idents := [] }

/-- `DBHistory.clear_cache`: reset the three transient caches. -/
def DBHistory.clear_cache (h : DBHistory) : DBHistory :=
  { h with _created := [], _updated := [], _deleted := [] }

/-- `DBHistory.clear`: reset the three durable ledgers, then the caches. -/
def DBHistory.clear (h : DBHistory) : DBHistory :=
  DBHistory.clear_cache
    { h with created_idents := [], updated_idents := [], deleted_idents := [] }

/-- The ledger dict selected by `getattr(self, mode + '_idents')`. -/
def DBHistory.ledgerOf (h : DBHistory) (mode : Mode) : IdentsDict :=
  match mode with
  | .created => h.created_idents
  | .updated => h.updated_idents
  | .deleted => h.deleted_idents

/-- `DBHistory.last(model_cls, mode)`: the ledger entry for the class,
defaulting to the empty set. -/
def DBHistory.last (h : DBHistory) (model_cls : ModelCls) (mode : Mode) : IdentSet :=
  dictGetD (h.ledgerOf mode) model_cls

/-- What the session sees at a flush: the `new`, `dirty` and `deleted`
identity-set collections (`identityset_to_set` turns each into a plain
set of entities, which the list of distinct members models). -/
structure FlushInfo where
  new : List Obj
  dirty : List Obj
  deleted : List Obj

/-- `DBHistory._after_flush`: union the session's flush collections into
the transient caches. -/
def DBHistory._after_flush (h : DBHistory) (db : FlushInfo) : DBHistory :=
  { h with
    _created := setUnion h._created db.new
    _updated := setUnion h._updated db.dirty
    _deleted := setUnion h._deleted db.deleted }

/-- `DBHistory._populate_idents_dict(idents, objects)`: resolve each
entity to its identity key and add it to the dict under its class. -/
def DBHistory._populate_idents_dict (idents : IdentsDict) (objects : List Obj) : IdentsDict :=
  objects.foldl (fun d o => dictAdd d (identity_key o).1 (identity_key o).2) idents

/-- What the session exposes at a commit: whether `db.transaction` is a
nested (savepoint) transaction. -/
structure CommitInfo where
  nested : Bool

/-- `DBHistory._after_commit`: a nested-transaction commit is ignored;
otherwise promote the three transient caches into the durable ledgers
and clear the caches. -/
def DBHistory._after_commit (h : DBHistory) (db : CommitInfo) : DBHistory :=
  if db.nested then h
  else
    DBHistory.clear_cache
      { h with
        created_idents := DBHistory._populate_idents_dict h.created_idents h._created
        updated_idents := DBHistory._populate_idents_dict h.updated_idents h._updated
        deleted_idents := DBHistory._populate_idents_dict h.deleted_idents h._deleted }

/-- `DBHistory._after_rollback`: discard the transient caches. -/
def DBHistory._after_rollback (h : DBHistory) : DBHistory :=
  h.clear_cache

/-- `DBHistory.__enter__`: after registering the three event listeners
(a session-level side effect outside the model), clear the caches. -/
def DBHistory.enterScope (h : DBHistory) : DBHistory :=
  h.clear_cache

/-- `DBHistory.__exit__`: after removing the three event listeners
(a session-level side effect outside the model), clear the caches. -/
def DBHistory.exitScope (h : DBHistory) : DBHistory :=
  h.clear_cache

theorem setUnion_mem {α : Type} [DecidableEq α] (a b : List α) (x : α) :
    x ∈ setUnion a b ↔ x ∈ a ∨ x ∈ b := by
  simp only [setUnion, List.mem_append, List.mem_filter, decide_eq_true_eq]
  constructor
  · rintro (hx | ⟨hx, _⟩)
    · exact Or.inl hx
    · exact Or.inr hx
  · rintro (hx | hx)
    · exact Or.inl hx
    · by_cases hxa : x ∈ a
      · exact Or.inl hxa
      · exact Or.inr ⟨hx, hxa⟩

theorem setUnion_idem {α : Type} [DecidableEq α] (a b : List α) :
    setUnion (setUnion a b) b = setUnion a b := by
  have hfilter : b.filter (fun x => decide (x ∉ setUnion a b)) = [] := by
    apply List.filter_eq_nil_iff.mpr
    intro x hx
    simp only [decide_eq_true_eq, not_not]
    exact (setUnion_mem a b x).mpr (Or.inr hx)
  calc setUnion (setUnion a b) b
      = setUnion a b ++ b.filter (fun x => decide (x ∉ setUnion a b)) := rfl
    _ = setUnion a b ++ [] := by rw [hfilter]
    _ = setUnion a b := List.append_nil _

/-- C6: the post-flush observer merges the session's `new`, `dirty` and
`deleted` collections into the transient caches by set union (membership
in a cache afterwards is membership before or in the incoming
collection), so replaying the same flush contents a second time leaves
the tracker state unchanged. -/
theorem DBHistory.after_flush_union_idempotent (h : DBHistory) (db : FlushInfo) :
    ((h._after_flush db)._after_flush db = h._after_flush db) ∧
    (∀ o : Obj,
      (o ∈ (h._after_flush db)._created ↔ o ∈ h._created ∨ o ∈ db.new) ∧
      (o ∈ (h._after_flush db)._updated ↔ o ∈ h._updated ∨ o ∈ db.dirty) ∧
      (o ∈ (h._after_flush db)._deleted ↔ o ∈ h._deleted ∨ o ∈ db.deleted)) := by
  constructor
  · simp [DBHistory._after_flush, setUnion_idem]
  · intro o
    exact ⟨setUnion_mem _ _ o, setUnion_mem _ _ o, setUnion_mem _ _ o⟩

theorem mem_insertElem {α : Type} [DecidableEq α] (s : List α) (x y : α) :
    x ∈ insertElem s y ↔ x = y ∨ x ∈ s := by
  unfold insertElem
  by_cases hy : y ∈ s
  · simp only [if_pos hy]
    constructor
    · exact Or.inr
    · rintro (rfl | hx)
      · exact hy
      · exact hx
  · simp only [if_neg hy, List.mem_append, List.mem_singleton]
    tauto

theorem mem_dictGetD_dictAdd (d : IdentsDict) (k c : ModelCls) (i j : Ident) :
    i ∈ dictGetD (dictAdd d k j) c ↔ (c = k ∧ i = j) ∨ i ∈ dictGetD d c := by
  induction d with
  | nil =>
      by_cases hck : k = c
      · subst hck
        simp [dictAdd, dictGetD, insertElem]
      · have hck2 : ¬ c = k := fun hcc => hck hcc.symm
        simp [dictAdd, dictGetD, hck, hck2]
  | cons p rest ih =>
      obtain ⟨k', v⟩ := p
      by_cases hk : k' = k
      · subst hk
        by_cases hc : k' = c
        · subst hc
          simp [dictAdd, dictGetD, mem_insertElem]
        · have hc2 : ¬ c = k' := fun hcc => hc hcc.symm
          simp [dictAdd, dictGetD, hc, hc2]
      · by_cases hc : k' = c
        · subst hc
          simp [dictAdd, dictGetD, hk]
        · simp [dictAdd, dictGetD, hk, hc, ih]

theorem mem_dictGetD_populate (objs : List Obj) (d : IdentsDict) (c : ModelCls) (i : Ident) :
    i ∈ dictGetD (DBHistory._populate_idents_dict d objs) c ↔
      (⟨c, i⟩ : Obj) ∈ objs ∨ i ∈ dictGetD d c := by
  induction objs generalizing d with
  | nil => simp [DBHistory._populate_idents_dict]
  | cons o rest ih =>
      simp only [DBHistory._populate_idents_dict, List.foldl_cons] at *
      rw [ih]
      rw [mem_dictGetD_dictAdd]
      constructor
      · rintro (hrest | (⟨hc, hi⟩ | hd))
        · exact Or.inl (List.mem_cons_of_mem _ hrest)
        · subst hc; subst hi
          exact Or.inl (List.mem_cons_self _ _)
        · exact Or.inr hd
      · rintro (ho | hd)
        · rcases List.mem_cons.mp ho with ho | hrest
          · refine Or.inr (Or.inl ?_)
            rw [← ho]
            exact ⟨rfl, rfl⟩
          · exact Or.inl hrest
        · exact Or.inr (Or.inr hd)

/-- C1: a post-commit event for a nested (savepoint) transaction changes
nothing; an outermost post-commit resolves every entity of the three
transient caches to its identity key and adds it to the matching durable
ledger (keeping what the ledger already held), then empties the three
transient caches. -/
theorem DBHistory.after_commit_promotes_unless_nested (h : DBHistory) (db : CommitInfo) :
    (db.nested = true → h._after_commit db = h) ∧
    (db.nested = false →
      ((h._after_commit db)._created = [] ∧
       (h._after_commit db)._updated = [] ∧
       (h._after_commit db)._deleted = []) ∧
      (∀ o ∈ h._created, o.ident ∈ dictGetD (h._after_commit db).created_idents o.cls) ∧
      (∀ o ∈ h._updated, o.ident ∈ dictGetD (h._after_commit db).updated_idents o.cls) ∧
      (∀ o ∈ h._deleted, o.ident ∈ dictGetD (h._after_commit db).deleted_idents o.cls) ∧
      (∀ c i, i ∈ dictGetD h.created_idents c →
        i ∈ dictGetD (h._after_commit db).created_idents c) ∧
      (∀ c i, i ∈ dictGetD h.updated_idents c →
        i ∈ dictGetD (h._after_commit db).updated_idents c) ∧
      (∀ c i, i ∈ dictGetD h.deleted_idents c →
        i ∈ dictGetD (h._after_commit db).deleted_idents c)) := by
  constructor
  · intro hn
    simp [DBHistory._after_commit, hn]
  · intro hn
    have hcommit : h._after_commit db =
        DBHistory.clear_cache
          { h with
            created_idents := DBHistory._populate_idents_dict h.created_idents h._created
            updated_idents := DBHistory._populate_idents_dict h.updated_idents h._updated
            deleted_idents := DBHistory._populate_idents_dict h.deleted_idents h._deleted } := by
      simp [DBHistory._after_commit, hn]
    rw [hcommit]
    refine ⟨⟨rfl, rfl, rfl⟩, ?_, ?_, ?_, ?_, ?_, ?_⟩
    · intro o ho
      exact (mem_dictGetD_populate h._created h.created_idents o.cls o.ident).mpr (Or.inl ho)
    · intro o ho
      exact (mem_dictGetD_populate h._updated h.updated_idents o.cls o.ident).mpr (Or.inl ho)
    · intro o ho
      exact (mem_dictGetD_populate h._deleted h.deleted_idents o.cls o.ident).mpr (Or.inl ho)
    · intro c i hi
      exact (mem_dictGetD_populate h._created h.created_idents c i).mpr (Or.inr hi)
    · intro c i hi
      exact (mem_dictGetD_populate h._updated h.updated_idents c i).mpr (Or.inr hi)
    · intro c i hi
      exact (mem_dictGetD_populate h._deleted h.deleted_idents c i).mpr (Or.inr hi)

/-- A sample tracker state with one pending created entity. -/
def hC1ex : DBHistory :=
  { _created := [⟨1, [2]⟩], _updated := [], _deleted := []
    created_idents := [], updated_idents := [], deleted_idents := [] }

/-- C1 witness: at a concrete state, a nested commit is a no-op and an
outermost commit promotes the pending created entity. -/
theorem DBHistory.after_commit_promotes_unless_nested_witness :
    hC1ex._after_commit ⟨true⟩ = hC1ex ∧
    (hC1ex._after_commit ⟨false⟩)._created = [] ∧
    [2] ∈ dictGetD (hC1ex._after_commit ⟨false⟩).created_idents 1 :=
  ⟨(DBHistory.after_commit_promotes_unless_nested hC1ex ⟨true⟩).1 rfl,
   ((DBHistory.after_commit_promotes_unless_nested hC1ex ⟨false⟩).2 rfl).1.1,
   ((DBHistory.after_commit_promotes_unless_nested hC1ex ⟨false⟩).2 rfl).2.1
     ⟨1, [2]⟩ (by decide)⟩

/-- C5: a post-soft-rollback event empties the three transient caches and
promotes nothing: the three durable ledgers are exactly what they were. -/
theorem DBHistory.after_rollback_frame (h : DBHistory) :
    h._after_rollback._created = [] ∧
    h._after_rollback._updated = [] ∧
    h._after_rollback._deleted = [] ∧
    h._after_rollback.created_idents = h.created_idents ∧
    h._after_rollback.updated_idents = h.updated_idents ∧
    h._after_rollback.deleted_idents = h.deleted_idents :=
  ⟨rfl, rfl, rfl, rfl, rfl, rfl⟩

/-- A sample tracker state whose durable ledgers are non-empty. -/
def hC3ex : DBHistory :=
  { _created := [], _updated := [], _deleted := []
    created_idents := [(1, [[2]])], updated_idents := [(3, [[4]])]
    deleted_idents := [(5, [[6]])] }

/-- C3 counterexample: exiting the scope does not empty the durable
ledgers — at a state with non-empty ledgers, they survive `__exit__`. -/
theorem DBHistory.exit_forgets_ledgers_cex :
    ¬ (hC3ex.exitScope.created_idents = [] ∧
       hC3ex.exitScope.updated_idents = [] ∧
       hC3ex.exitScope.deleted_idents = []) := by
  decide

/-- C3 amended: on exiting the scope the tracker stops observing and
empties the three transient caches, but keeps the three durable ledgers
unchanged (so assertions can still read them after the scope closes). -/
theorem DBHistory.exit_clears_caches_keeps_ledgers (h : DBHistory) :
    h.exitScope._created = [] ∧
    h.exitScope._updated = [] ∧
    h.exitScope._deleted = [] ∧
    h.exitScope.created_idents = h.created_idents ∧
    h.exitScope.updated_idents = h.updated_idents ∧
    h.exitScope.deleted_idents = h.deleted_idents :=
  ⟨rfl, rfl, rfl, rfl, rfl, rfl⟩

/-- A second sample tracker state with non-empty durable ledgers. -/
def hC4ex : DBHistory :=
  { _created := [⟨7, [8]⟩], _updated := [], _deleted := []
    created_idents := [(1, [[2]])], updated_idents := []
    deleted_idents := [] }

/-- C4 counterexample: observing a soft rollback does not purge the
durable ledgers — at a state with a non-empty created ledger, the entry
survives `_after_rollback`. -/
theorem DBHistory.rollback_purges_ledgers_cex :
    ¬ (hC4ex._after_rollback.created_idents = [] ∧
       hC4ex._after_rollback.updated_idents = [] ∧
       hC4ex._after_rollback.deleted_idents = []) := by
  decide

/-- C4 amended: the durable ledgers are purged exactly by an explicit
`clear()` call; an observed soft rollback empties only the transient
caches and leaves all three durable ledgers unchanged. -/
theorem DBHistory.clear_purges_ledgers_rollback_does_not (h : DBHistory) :
    (h.clear.created_idents = [] ∧
     h.clear.updated_idents = [] ∧
     h.clear.deleted_idents = [] ∧
     h.clear._created = [] ∧ h.clear._updated = [] ∧ h.clear._deleted = []) ∧
    (h._after_rollback.created_idents = h.created_idents ∧
     h._after_rollback.updated_idents = h.updated_idents ∧
     h._after_rollback.deleted_idents = h.deleted_idents ∧
     h._after_rollback._created = [] ∧
     h._after_rollback._updated = [] ∧
     h._after_rollback._deleted = []) :=
  ⟨⟨rfl, rfl, rfl, rfl, rfl, rfl⟩, ⟨rfl, rfl, rfl, rfl, rfl, rfl⟩⟩

/-- The `ident` argument of `assert_`: Python accepts a bare primary-key
value or an already-formed tuple/list of key values. -/
inductive IdentArg where
  | scalar (v : Nat)
  | tup (t : Ident)
deriving DecidableEq, Repr

/-- `i = ident if isinstance(ident, (tuple, list)) else (ident,)`:
wrap a scalar key into a one-element tuple. -/
def normIdentArg : IdentArg → Ident
  | .scalar v => [v]
  | .tup t => t

/-- The `AssertionError`s the tracker can raise, one constructor per
message template of the source, carrying the values interpolated into
the message. -/
inductive AssertError where
  | noInstances (model_cls : ModelCls) (mode : Mode)
  | noInstancesWithIdent (model_cls : ModelCls) (ident : IdentArg) (mode : Mode)
  | wrongCount (n : Nat) (model_cls : ModelCls) (mode : Mode)
  | somethingCreated
  | somethingUpdated
  | somethingDeleted
deriving DecidableEq, Repr

/-- `DBHistory.assert_(model_cls, ident=None, mode='created')`: fail when
the recorded set is empty, fail when a supplied identity is absent,
otherwise return the recorded identity set for the class. -/
def DBHistory.assert_ (h : DBHistory) (model_cls : ModelCls) (ident : Option IdentArg)
    (mode : Mode) : Except AssertError IdentSet :=
  let idents := h.last model_cls mode
  if idents = [] then .error (.noInstances model_cls mode)
  else
    match ident with
    | none => .ok idents
    | some ia =>
        if normIdentArg ia ∈ idents then .ok idents
        else .error (.noInstancesWithIdent model_cls ia mode)

/-- The session as seen by `_idents_to_objects_set`:
`query(model_cls).get(ident)` returns the live entity or `None`. -/
structure SessionDb where
  get : ModelCls → Ident → Option Obj

/-- `DBHistory._idents_to_objects_set`: build the Python set of
`query(model_cls).get(ident)` results (which may contain `None`). -/
def DBHistory._idents_to_objects_set (h : DBHistory) (sess : SessionDb)
    (idents : IdentSet) (model_cls : ModelCls) : List (Option Obj) :=
  (idents.map (fun i => sess.get model_cls i)).foldl insertElem []

/-- `DBHistory.last_created`. -/
def DBHistory.last_created (h : DBHistory) (sess : SessionDb) (model_cls : ModelCls) :
    List (Option Obj) :=
  h._idents_to_objects_set sess (h.last model_cls .created) model_cls

/-- `DBHistory.last_updated`. -/
def DBHistory.last_updated (h : DBHistory) (sess : SessionDb) (model_cls : ModelCls) :
    List (Option Obj) :=
  h._idents_to_objects_set sess (h.last model_cls .updated) model_cls

/-- `DBHistory.last_deleted`: the identity keys themselves. -/
def DBHistory.last_deleted (h : DBHistory) (model_cls : ModelCls) : IdentSet :=
  h.last model_cls .deleted

/-- `DBHistory.assert_created`: resolve the asserted identity set to
live entities; an assertion failure propagates unchanged. -/
def DBHistory.assert_created (h : DBHistory) (sess : SessionDb) (model_cls : ModelCls)
    (ident : Option IdentArg) : Except AssertError (List (Option Obj)) :=
  match h.assert_ model_cls ident .created with
  | .error e => .error e
  | .ok idents => .ok (h._idents_to_objects_set sess idents model_cls)

/-- `DBHistory.assert_updated`. -/
def DBHistory.assert_updated (h : DBHistory) (sess : SessionDb) (model_cls : ModelCls)
    (ident : Option IdentArg) : Except AssertError (List (Option Obj)) :=
  match h.assert_ model_cls ident .updated with
  | .error e => .error e
  | .ok idents => .ok (h._idents_to_objects_set sess idents model_cls)

/-- `DBHistory.assert_deleted`: returns identity keys, not entities. -/
def DBHistory.assert_deleted (h : DBHistory) (model_cls : ModelCls)
    (ident : Option IdentArg) : Except AssertError IdentSet :=
  h.assert_ model_cls ident .deleted

/-- `DBHistory.assert_nothing_happened`: the three `assert not ...`
statements, in source order. -/
def DBHistory.assert_nothing_happened (h : DBHistory) : Except AssertError Unit :=
  if h.created_idents = [] then
    if h.updated_idents = [] then
      if h.deleted_idents = [] then .ok ()
      else .error .somethingDeleted
    else .error .somethingUpdated
  else .error .somethingCreated

theorem assert_cases (h : DBHistory) (model_cls : ModelCls) (ident : Option IdentArg)
    (mode : Mode) :
    (h.last model_cls mode = [] →
      h.assert_ model_cls ident mode = .error (.noInstances model_cls mode)) ∧
    (∀ ia, h.last model_cls mode ≠ [] → ident = some ia →
      normIdentArg ia ∉ h.last model_cls mode →
      h.assert_ model_cls ident mode = .error (.noInstancesWithIdent model_cls ia mode)) ∧
    (h.last model_cls mode ≠ [] →
      (ident = none ∨ ∃ ia, ident = some ia ∧ normIdentArg ia ∈ h.last model_cls mode) →
      h.assert_ model_cls ident mode = .ok (h.last model_cls mode)) := by
  refine ⟨?_, ?_, ?_⟩
  · intro he
    simp [DBHistory.assert_, he]
  · intro ia hne hia hmem
    subst hia
    simp [DBHistory.assert_, hne, hmem]
  · intro hne hok
    rcases hok with rfl | ⟨ia, rfl, hmem⟩
    · simp [DBHistory.assert_, hne]
    · simp [DBHistory.assert_, hne, hmem]

/-- C7: for each mode, the assert accessor raises `noInstances` (message
carrying class and mode) when that class's recorded set is empty; with a
supplied identity that is absent it raises the distinct
`noInstancesWithIdent` (message naming the identity); otherwise it
returns the class's recorded result — resolved entities for
created/updated, identity keys for deleted. -/
theorem DBHistory.assert_accessors_spec (h : DBHistory) (sess : SessionDb)
    (model_cls : ModelCls) (ident : Option IdentArg) :
    (h.last model_cls .created = [] →
      h.assert_created sess model_cls ident = .error (.noInstances model_cls .created)) ∧
    (∀ ia, h.last model_cls .created ≠ [] → ident = some ia →
      normIdentArg ia ∉ h.last model_cls .created →
      h.assert_created sess model_cls ident =
        .error (.noInstancesWithIdent model_cls ia .created)) ∧
    (h.last model_cls .created ≠ [] →
      (ident = none ∨ ∃ ia, ident = some ia ∧ normIdentArg ia ∈ h.last model_cls .created) →
      h.assert_created sess model_cls ident =
        .ok (h._idents_to_objects_set sess (h.last model_cls .created) model_cls)) ∧
    (h.last model_cls .updated = [] →
      h.assert_updated sess model_cls ident = .error (.noInstances model_cls .updated)) ∧
    (∀ ia, h.last model_cls .updated ≠ [] → ident = some ia →
      normIdentArg ia ∉ h.last model_cls .updated →
      h.assert_updated sess model_cls ident =
        .error (.noInstancesWithIdent model_cls ia .updated)) ∧
    (h.last model_cls .updated ≠ [] →
      (ident = none ∨ ∃ ia, ident = some ia ∧ normIdentArg ia ∈ h.last model_cls .updated) →
      h.assert_updated sess model_cls ident =
        .ok (h._idents_to_objects_set sess (h.last model_cls .updated) model_cls)) ∧
    (h.last model_cls .deleted = [] →
      h.assert_deleted model_cls ident = .error (.noInstances model_cls .deleted)) ∧
    (∀ ia, h.last model_cls .deleted ≠ [] → ident = some ia →
      normIdentArg ia ∉ h.last model_cls .deleted →
      h.assert_deleted model_cls ident =
        .error (.noInstancesWithIdent model_cls ia .deleted)) ∧
    (h.last model_cls .deleted ≠ [] →
      (ident = none ∨ ∃ ia, ident = some ia ∧ normIdentArg ia ∈ h.last model_cls .deleted) →
      h.assert_deleted model_cls ident = .ok (h.last model_cls .deleted)) := by
  obtain ⟨hce, hci, hco⟩ := assert_cases h model_cls ident .created
  obtain ⟨hue, hui, huo⟩ := assert_cases h model_cls ident .updated
  obtain ⟨hde, hdi, hdo⟩ := assert_cases h model_cls ident .deleted
  refine ⟨?_, ?_, ?_, ?_, ?_, ?_, ?_, ?_, ?_⟩
  · intro he
    simp [DBHistory.assert_created, hce he]
  · intro ia hne hia hmem
    simp [DBHistory.assert_created, hci ia hne hia hmem]
  · intro hne hok
    simp [DBHistory.assert_created, hco hne hok]
  · intro he
    simp [DBHistory.assert_updated, hue he]
  · intro ia hne hia hmem
    simp [DBHistory.assert_updated, hui ia hne hia hmem]
  · intro hne hok
    simp [DBHistory.assert_updated, huo hne hok]
  · intro he
    simp [DBHistory.assert_deleted, hde he]
  · intro ia hne hia hmem
    simp [DBHistory.assert_deleted, hdi ia hne hia hmem]
  · intro hne hok
    simp [DBHistory.assert_deleted, hdo hne hok]

/-- A tracker state with one created `(1, (5,))` and one deleted
`(2, (7,))` entry in the durable ledgers. -/
def hC7ex : DBHistory :=
  { _created := [], _updated := [], _deleted := []
    created_idents := [(1, [[5]])], updated_idents := []
    deleted_idents := [(2, [[7]])] }

/-- A session in which every identity resolves to a live entity. -/
def sessC7ex : SessionDb :=
  { get := fun c i => some ⟨c, i⟩ }

/-- C7 witness: at the concrete state, the success case with a present
identity, the empty-ledger failure, the missing-identity failure and the
deleted success case all behave as the theorem states. -/
theorem DBHistory.assert_accessors_spec_witness :
    hC7ex.assert_created sessC7ex 1 (some (.scalar 5)) = .ok [some ⟨1, [5]⟩] ∧
    hC7ex.assert_updated sessC7ex 1 none = .error (.noInstances 1 .updated) ∧
    hC7ex.assert_created sessC7ex 1 (some (.scalar 9)) =
      .error (.noInstancesWithIdent 1 (.scalar 9) .created) ∧
    hC7ex.assert_deleted 2 none = .ok [[7]] := by
  have h1 := (DBHistory.assert_accessors_spec hC7ex sessC7ex 1 (some (.scalar 5))).2.2.1
    (by decide) (Or.inr ⟨.scalar 5, rfl, by decide⟩)
  have h2 := (DBHistory.assert_accessors_spec hC7ex sessC7ex 1 none).2.2.2.1 (by decide)
  have h3 := (DBHistory.assert_accessors_spec hC7ex sessC7ex 1 (some (.scalar 9))).2.1
    (.scalar 9) (by decide) rfl (by decide)
  have h4 := (DBHistory.assert_accessors_spec hC7ex sessC7ex 2 none).2.2.2.2.2.2.2.2
    (by decide) (Or.inl rfl)
  exact ⟨h1.trans rfl, h2, h3, h4.trans rfl⟩

/-- C8: `assert_nothing_happened` succeeds exactly when the three durable
ledgers are all empty, and raises an assertion error whenever any of the
three is non-empty. -/
theorem DBHistory.assert_nothing_happened_iff (h : DBHistory) :
    (h.assert_nothing_happened = .ok () ↔
      (h.created_idents = [] ∧ h.updated_idents = [] ∧ h.deleted_idents = [])) ∧
    ((∃ e, h.assert_nothing_happened = .error e) ↔
      ¬ (h.created_idents = [] ∧ h.updated_idents = [] ∧ h.deleted_idents = [])) := by
  by_cases h1 : h.created_idents = [] <;>
    by_cases h2 : h.updated_idents = [] <;>
      by_cases h3 : h.deleted_idents = [] <;>
        simp [DBHistory.assert_nothing_happened, h1, h2, h3]

theorem dictGetD_of_not_hasKey (d : IdentsDict) (k : ModelCls)
    (hk : dictHasKey d k = false) : dictGetD d k = [] := by
  induction d with
  | nil => rfl
  | cons p rest ih =>
      obtain ⟨k', v⟩ := p
      simp only [dictHasKey, Bool.or_eq_false_iff, decide_eq_false_iff_not] at hk
      simp [dictGetD, hk.1, ih hk.2]

/-- C10: for a model class with no ledger entry under a mode, `last`
returns the empty set (a value, not an absence marker or an error), and
hence `last_deleted` returns the empty set and `last_created` /
`last_updated` return empty entity sets for such a class. -/
theorem DBHistory.last_default_empty (h : DBHistory) (sess : SessionDb)
    (model_cls : ModelCls) :
    (∀ mode, dictHasKey (h.ledgerOf mode) model_cls = false →
      h.last model_cls mode = []) ∧
    (dictHasKey h.deleted_idents model_cls = false →
      h.last_deleted model_cls = []) ∧
    (dictHasKey h.created_idents model_cls = false →
      h.last_created sess model_cls = []) ∧
    (dictHasKey h.updated_idents model_cls = false →
      h.last_updated sess model_cls = []) := by
  have hlast : ∀ mode, dictHasKey (h.ledgerOf mode) model_cls = false →
      h.last model_cls mode = [] := by
    intro mode hk
    exact dictGetD_of_not_hasKey _ _ hk
  refine ⟨hlast, ?_, ?_, ?_⟩
  · intro hk
    exact hlast .deleted hk
  · intro hk
    rw [DBHistory.last_created, hlast .created hk]
    rfl
  · intro hk
    rw [DBHistory.last_updated, hlast .updated hk]
    rfl

/-- C10 witness: the freshly initialised tracker has no entry for class
`3`, and all four accessors return the empty set there. -/
theorem DBHistory.last_default_empty_witness :
    dictHasKey DBHistory.init.created_idents 3 = false ∧
    DBHistory.init.last 3 .created = [] ∧
    DBHistory.init.last_deleted 3 = [] ∧
    DBHistory.init.last_created sessC7ex 3 = [] ∧
    DBHistory.init.last_updated sessC7ex 3 = [] :=
  ⟨rfl,
   (DBHistory.last_default_empty DBHistory.init sessC7ex 3).1 .created rfl,
   (DBHistory.last_default_empty DBHistory.init sessC7ex 3).2.1 rfl,
   (DBHistory.last_default_empty DBHistory.init sessC7ex 3).2.2.1 rfl,
   (DBHistory.last_default_empty DBHistory.init sessC7ex 3).2.2.2 rfl⟩

/-- The committed rows of the store, as (model class, identity key)
pairs; row contents beyond the identity are irrelevant to `Restorable`. -/
abbrev Db := List (ModelCls × Ident)

/-- `db.query(cls).get(ident) is not None` against the committed store. -/
def dbHasRow (db : Db) (cls : ModelCls) (i : Ident) : Bool :=
  decide ((cls, i) ∈ db)

/-- `db.delete(instance)` followed by the cleanup commit: the row is gone
from the committed store. -/
def dbDeleteRow (db : Db) (cls : ModelCls) (i : Ident) : Db :=
  db.filter (fun r => decide (r ≠ (cls, i)))

/-- The body of the cleanup loop: re-query the row and delete it only if
it still exists. -/
def deleteIfPresent (db : Db) (cls : ModelCls) (i : Ident) : Db :=
  if dbHasRow db cls i then dbDeleteRow db cls i else db

/-- `Restorable.after_flush`: record the identity key of every newly
inserted instance of the flush, grouped by model class
(`history.setdefault(cls, set()).add(ident)`). -/
def Restorable.after_flush (history : IdentsDict) (new : List Obj) : IdentsDict :=
  new.foldl (fun d o => dictAdd d (identity_key o).1 (identity_key o).2) history

/-- The delete loop of `Restorable.__exit__`: for every recorded
(model class, identity key), delete the row if it still exists. -/
def Restorable.cleanup (db : Db) (history : IdentsDict) : Db :=
  history.foldl (fun d p => p.2.foldl (fun d2 i => deleteIfPresent d2 p.1 i) d) db

/-- `Restorable.__exit__(type, value, traceback)`: the exception triple is
ignored (cleanup runs the same way on normal and raising exits, and the
method suppresses nothing).  The preparatory `rollback` / `expunge_all` /
autoflush toggling / `begin` and the final `commit` / `close` are session
mechanics; their row-level effect on the committed store is the delete
loop itself, applied here. -/
def Restorable.exitScope (excInfo : Option Nat) (db : Db) (history : IdentsDict) : Db :=
  Restorable.cleanup db history


/-- `r` is recorded in the sandbox history under its class. -/
def rowRecorded (history : IdentsDict) (r : ModelCls × Ident) : Prop :=
  ∃ p ∈ history, r.1 = p.1 ∧ r.2 ∈ p.2

theorem rowRecorded_nil (r : ModelCls × Ident) : ¬ rowRecorded [] r := by
  rintro ⟨p, hp, _⟩
  exact absurd hp (List.not_mem_nil p)

theorem rowRecorded_cons (p : ModelCls × IdentSet) (rest : IdentsDict)
    (r : ModelCls × Ident) :
    rowRecorded (p :: rest) r ↔ (r.1 = p.1 ∧ r.2 ∈ p.2) ∨ rowRecorded rest r := by
  unfold rowRecorded
  constructor
  · rintro ⟨q, hq, h1, h2⟩
    rcases List.mem_cons.mp hq with rfl | hq2
    · exact Or.inl ⟨h1, h2⟩
    · exact Or.inr ⟨q, hq2, h1, h2⟩
  · rintro (⟨h1, h2⟩ | ⟨q, hq, h1, h2⟩)
    · exact ⟨p, List.mem_cons_self _ _, h1, h2⟩
    · exact ⟨q, List.mem_cons_of_mem _ hq, h1, h2⟩

theorem mem_deleteIfPresent (db : Db) (cls : ModelCls) (i : Ident) (r : ModelCls × Ident) :
    r ∈ deleteIfPresent db cls i ↔ r ∈ db ∧ ¬ (r.1 = cls ∧ r.2 = i) := by
  obtain ⟨r1, r2⟩ := r
  unfold deleteIfPresent
  by_cases hrow : dbHasRow db cls i
  · simp only [if_pos hrow, dbDeleteRow, List.mem_filter, decide_eq_true_eq]
    simp [Prod.ext_iff]
  · simp only [if_neg hrow]
    unfold dbHasRow at hrow
    simp only [decide_eq_true_eq] at hrow
    constructor
    · intro hr
      refine ⟨hr, ?_⟩
      rintro ⟨rfl, rfl⟩
      exact hrow hr
    · exact And.left

theorem mem_cleanup_inner (idents : IdentSet) (db : Db) (cls : ModelCls)
    (r : ModelCls × Ident) :
    r ∈ idents.foldl (fun d2 i => deleteIfPresent d2 cls i) db ↔
      r ∈ db ∧ ¬ (r.1 = cls ∧ r.2 ∈ idents) := by
  induction idents generalizing db with
  | nil => simp
  | cons i rest ih =>
      simp only [List.foldl_cons]
      rw [ih, mem_deleteIfPresent]
      simp only [List.mem_cons]
      tauto

theorem mem_cleanup (history : IdentsDict) (db : Db) (r : ModelCls × Ident) :
    r ∈ Restorable.cleanup db history ↔ r ∈ db ∧ ¬ rowRecorded history r := by
  induction history generalizing db with
  | nil =>
      simp only [Restorable.cleanup, List.foldl_nil]
      have := rowRecorded_nil r
      tauto
  | cons p rest ih =>
      simp only [Restorable.cleanup, List.foldl_cons] at *
      rw [ih, mem_cleanup_inner, rowRecorded_cons]
      tauto

theorem rowRecorded_dictAdd (d : IdentsDict) (k : ModelCls) (i : Ident)
    (r : ModelCls × Ident) :
    rowRecorded (dictAdd d k i) r ↔ (r.1 = k ∧ r.2 = i) ∨ rowRecorded d r := by
  induction d with
  | nil =>
      rw [show dictAdd [] k i = [(k, insertElem [] i)] from rfl, rowRecorded_cons]
      simp only [insertElem, List.not_mem_nil, if_false, List.nil_append,
        List.mem_singleton]
  | cons p rest ih =>
      obtain ⟨k', v⟩ := p
      by_cases hk : k' = k
      · subst hk
        rw [show dictAdd ((k', v) :: rest) k' i = (k', insertElem v i) :: rest from by
              simp [dictAdd],
            rowRecorded_cons, rowRecorded_cons]
        simp only [mem_insertElem]
        tauto
      · rw [show dictAdd ((k', v) :: rest) k i = (k', v) :: dictAdd rest k i from by
              simp [dictAdd, hk],
            rowRecorded_cons, rowRecorded_cons, ih]
        tauto

theorem rowRecorded_after_flush (objs : List Obj) (d : IdentsDict) (r : ModelCls × Ident) :
    rowRecorded (Restorable.after_flush d objs) r ↔
      (∃ o ∈ objs, r.1 = o.cls ∧ r.2 = o.ident) ∨ rowRecorded d r := by
  induction objs generalizing d with
  | nil => simp [Restorable.after_flush]
  | cons o rest ih =>
      simp only [Restorable.after_flush, List.foldl_cons] at *
      rw [ih, rowRecorded_dictAdd]
      simp only [List.mem_cons, identity_key]
      constructor
      · rintro (⟨o2, ho2, h1, h2⟩ | (⟨h1, h2⟩ | hd))
        · exact Or.inl ⟨o2, Or.inr ho2, h1, h2⟩
        · exact Or.inl ⟨o, Or.inl rfl, h1, h2⟩
        · exact Or.inr hd
      · rintro (⟨o2, (rfl | ho2), h1, h2⟩ | hd)
        · exact Or.inr (Or.inl ⟨h1, h2⟩)
        · exact Or.inl ⟨o2, ho2, h1, h2⟩
        · exact Or.inr (Or.inr hd)

/-- C2: on sandbox scope exit — with any exception state, since `__exit__`
ignores the exception triple — every (model class, identity key) recorded
by the flush observer is re-queried and deleted if still present, and the
cleanup commit leaves the store holding exactly the rows present before
the scope: a block that created fresh rows and committed restores the
touched tables to their pre-entry contents. -/
theorem Restorable.exit_restores_db (excInfo : Option Nat) (dbBefore : Db)
    (objs : List Obj)
    (hfresh : ∀ o ∈ objs, ((o.cls, o.ident) : ModelCls × Ident) ∉ dbBefore) :
    ∀ r, r ∈ Restorable.exitScope excInfo
            (dbBefore ++ objs.map (fun o => (o.cls, o.ident)))
            (Restorable.after_flush [] objs) ↔ r ∈ dbBefore := by
  intro r
  obtain ⟨r1, r2⟩ := r
  unfold Restorable.exitScope
  rw [mem_cleanup, rowRecorded_after_flush]
  have hnil := rowRecorded_nil ((r1, r2) : ModelCls × Ident)
  simp only [List.mem_append, List.mem_map]
  constructor
  · rintro ⟨hr | ⟨o, ho, hor⟩, hnot⟩
    · exact hr
    · injection hor with hc hi
      subst hc
      subst hi
      exact absurd (Or.inl ⟨o, ho, rfl, rfl⟩) hnot
  · intro hr
    refine ⟨Or.inl hr, ?_⟩
    rintro (⟨o, ho, h1, h2⟩ | hrec)
    · have h1c : r1 = o.cls := h1
      have h2c : r2 = o.ident := h2
      subst h1c
      subst h2c
      exact hfresh o ho hr
    · exact hnil hrec

/-- A store holding one pre-existing row `(1, (1,))`. -/
def dbC2ex : Db := [(1, [1])]

/-- Two fresh entities created (and committed) inside the sandbox. -/
def objsC2ex : List Obj := [⟨1, [2]⟩, ⟨2, [3]⟩]

/-- C2 witness: at the concrete store, after scope exit the pre-existing
row is still present and a row created inside the scope is gone. -/
theorem Restorable.exit_restores_db_witness :
    (∀ o ∈ objsC2ex, ((o.cls, o.ident) : ModelCls × Ident) ∉ dbC2ex) ∧
    (((1, [1]) : ModelCls × Ident) ∈
        Restorable.exitScope (some 0)
          (dbC2ex ++ objsC2ex.map (fun o => (o.cls, o.ident)))
          (Restorable.after_flush [] objsC2ex) ↔
      ((1, [1]) : ModelCls × Ident) ∈ dbC2ex) ∧
    (((1, [2]) : ModelCls × Ident) ∈
        Restorable.exitScope (some 0)
          (dbC2ex ++ objsC2ex.map (fun o => (o.cls, o.ident)))
          (Restorable.after_flush [] objsC2ex) ↔
      ((1, [2]) : ModelCls × Ident) ∈ dbC2ex) :=
  ⟨by decide,
   Restorable.exit_restores_db (some 0) dbC2ex objsC2ex (by decide) (1, [1]),
   Restorable.exit_restores_db (some 0) dbC2ex objsC2ex (by decide) (1, [2])⟩

/-- The value produced by a fixture factory method: a single entity, or a
list/tuple of entities. -/
inductive FixtureResult where
  | one (v : Obj)
  | many (vs : List Obj)
deriving DecidableEq, Repr

/-- The instance-side state seen by `sample_property.__get__`: the
instance `__dict__` (where `setattr` caches results), the
`used_properties` set, the entities registered with the session
(`db.add` / `db.add_all`), and the log of factory invocations (the
instrumentation that counts how often a factory runs). -/
structure SampleInst where
  attrs : List (String × FixtureResult)
  used_properties : List String
  dbAdded : List Obj
  calls : List String

/-- A fixture node: `sample_property` wraps a factory method under a
node name (`self.method`, `self.name`). -/
structure sample_property where
  method : SampleInst → FixtureResult
  name : String

/-- Python instance `__dict__` lookup. -/
def lookupAttr (attrs : List (String × FixtureResult)) (name : String) :
    Option FixtureResult :=
  match attrs with
  | [] => none
  | (n, v) :: rest => if n = name then some v else lookupAttr rest name

/-- Python `setattr(inst, name, result)` on the instance `__dict__`. -/
def setAttr (attrs : List (String × FixtureResult)) (name : String)
    (v : FixtureResult) : List (String × FixtureResult) :=
  match attrs with
  | [] => [(name, v)]
  | (n, w) :: rest =>
      if n = name then (n, v) :: rest else (n, w) :: setAttr rest name v

/-- `sample_property.__get__` on an instance: invoke the factory method,
register the result with the session (`add_all` for a list/tuple, `add`
otherwise), record the name in `used_properties`, cache the result on
the instance under the node name via `setattr`, and return it. -/
def sample_property.descGet (p : sample_property) (inst : SampleInst) :
    FixtureResult × SampleInst :=
  let result := p.method inst
  let inst1 : SampleInst := { inst with calls := inst.calls ++ [p.name] }
  let inst2 : SampleInst :=
    match result with
    | .many vs => { inst1 with dbAdded := inst1.dbAdded ++ vs }
    | .one v => { inst1 with dbAdded := inst1.dbAdded ++ [v] }
  let inst3 : SampleInst :=
    { inst2 with used_properties := insertElem inst2.used_properties p.name }
  let inst4 : SampleInst := { inst3 with attrs := setAttr inst3.attrs p.name result }
  (result, inst4)

/-- Python attribute access for a fixture node: `sample_property`
defines only `__get__` (a non-data descriptor), so an instance
`__dict__` entry — created by the `setattr` inside `__get__` — shadows
the descriptor on every later access. -/
def getattrFixture (p : sample_property) (inst : SampleInst) :
    FixtureResult × SampleInst :=
  match lookupAttr inst.attrs p.name with
  | some r => (r, inst)
  | none => p.descGet inst

theorem lookupAttr_setAttr (attrs : List (String × FixtureResult)) (name : String)
    (v : FixtureResult) : lookupAttr (setAttr attrs name v) name = some v := by
  induction attrs with
  | nil => simp [setAttr, lookupAttr]
  | cons p rest ih =>
      obtain ⟨n, w⟩ := p
      by_cases hn : n = name
      · subst hn
        simp [setAttr, lookupAttr]
      · simp [setAttr, lookupAttr, hn, ih]

/-- C9: on a fixture node whose name is not yet in the instance
`__dict__`, the first access invokes the factory exactly once, registers
the result with the session (`add_all` for a list/tuple result, `add`
otherwise), stores the result under the node's name, and records the
name as used; a second access returns the stored value with no state
change (and hence no further factory invocation), so every subsequent
access does likewise. -/
theorem sample_property.get_memoizes (p : sample_property) (inst : SampleInst)
    (hfresh : lookupAttr inst.attrs p.name = none) :
    (getattrFixture p inst).1 = p.method inst ∧
    (getattrFixture p inst).2.calls = inst.calls ++ [p.name] ∧
    (getattrFixture p inst).2.dbAdded =
      inst.dbAdded ++ (match p.method inst with | .one v => [v] | .many vs => vs) ∧
    lookupAttr (getattrFixture p inst).2.attrs p.name = some (p.method inst) ∧
    p.name ∈ (getattrFixture p inst).2.used_properties ∧
    getattrFixture p (getattrFixture p inst).2 = getattrFixture p inst := by
  have hfirst : getattrFixture p inst = p.descGet inst := by
    unfold getattrFixture
    rw [hfresh]
  rw [hfirst]
  cases hres : p.method inst with
  | one v =>
      refine ⟨?_, ?_, ?_, ?_, ?_, ?_⟩ <;>
        simp [sample_property.descGet, getattrFixture, hres, lookupAttr_setAttr,
          mem_insertElem]
  | many vs =>
      refine ⟨?_, ?_, ?_, ?_, ?_, ?_⟩ <;>
        simp [sample_property.descGet, getattrFixture, hres, lookupAttr_setAttr,
          mem_insertElem]

/-- A concrete fixture node and a fresh instance. -/
def pC9ex : sample_property :=
  { method := fun _ => .one ⟨1, [1]⟩, name := "john" }

/-- A fresh `Sample` instance: empty `__dict__`, nothing used, nothing
registered, no factory calls. -/
def instC9ex : SampleInst :=
  { attrs := [], used_properties := [], dbAdded := [], calls := [] }

/-- C9 witness: on the fresh instance, the first access yields the
factory's entity with exactly one recorded invocation, and the second
access changes nothing. -/
theorem sample_property.get_memoizes_witness :
    lookupAttr instC9ex.attrs pC9ex.name = none ∧
    (getattrFixture pC9ex instC9ex).1 = .one ⟨1, [1]⟩ ∧
    (getattrFixture pC9ex instC9ex).2.calls = ["john"] ∧
    getattrFixture pC9ex (getattrFixture pC9ex instC9ex).2 =
      getattrFixture pC9ex instC9ex :=
  ⟨rfl,
   (sample_property.get_memoizes pC9ex instC9ex rfl).1,
   (sample_property.get_memoizes pC9ex instC9ex rfl).2.1,
   (sample_property.get_memoizes pC9ex instC9ex rfl).2.2.2.2.2⟩
